import Mathlib

/-!
Verification development for the MEP stage-1 IPPO Overcooked trainer
(`src/jaxzsc/mep/mep_s1_ippo_overcooked_ff.py`).

The definitions below are a shallow embedding of the parts of the program
the claims refer to: configuration arithmetic (`TrainConfig.__post_init__`),
the learning-rate schedule (`linear_schedule`), the reward-shaping anneal
(`optax.linear_schedule`), the MEP block of `_env_step` (population loop,
`jnp.delete` / `jnp.append` / `jnp.mean` / flattened `jnp.take`, reward
composition), the GAE reverse scan (`_calculate_gae`), minibatch chunking
(`_update_epoch`), the categorical entropy helper, and the population
rotation at the end of each iteration of `train`.

Machine floats are modelled as exact rationals (probabilities, rewards,
values) and reals where a logarithm is taken; `jnp` arrays along the
population axis become lists, arrays indexed by actor/action/env become
functions with explicit index arguments.
-/

/-- `TrainConfig`: the configuration fields the claims depend on
(`dataclass TrainConfig` in the source). -/
structure TrainConfig where
  population_size : ℕ
  ent_pop_coeff : ℚ
  rew_shaping_horizon : ℕ
  seed : ℕ
  lr : ℚ
  num_envs : ℕ
  num_steps : ℕ
  total_timesteps : ℕ
  update_epochs : ℕ
  num_minibatches : ℕ
deriving DecidableEq

/-- `__post_init__`: `num_actors = 2 * num_envs`. -/
def TrainConfig.num_actors (c : TrainConfig) : ℕ := 2 * c.num_envs

/-- `__post_init__`: `num_updates = total_timesteps // num_steps // num_envs`. -/
def TrainConfig.num_updates (c : TrainConfig) : ℕ :=
  c.total_timesteps / c.num_steps / c.num_envs

/-- `__post_init__`: `minibatch_size = num_actors * num_steps // num_minibatches`
(integer floor division; no validation is performed in `__post_init__`). -/
def TrainConfig.minibatch_size (c : TrainConfig) : ℕ :=
  c.num_actors * c.num_steps / c.num_minibatches

/-- The condition of the `assert` in `_update_epoch`:
`batch_size == num_steps * num_actors` with
`batch_size = minibatch_size * num_minibatches`. -/
def batch_size_ok (c : TrainConfig) : Bool :=
  c.minibatch_size * c.num_minibatches == c.num_steps * c.num_actors

/-- Events of one `_update_step` call, in program order. -/
inductive TrainEvent where
  | envStep : TrainEvent
  | assertFailure : TrainEvent
  | minibatchUpdate : TrainEvent
deriving DecidableEq

/-- Program-order event trace of one `_update_step` call: the
`jax.lax.scan` over `_env_step` collects `num_steps` environment steps
first; only then do the update epochs run, each of which begins with the
batch-size `assert` (so an invalid configuration aborts at the first
epoch, after collection). -/
def update_step_events (c : TrainConfig) : List TrainEvent :=
  List.replicate c.num_steps TrainEvent.envStep ++
    (if batch_size_ok c then
      List.replicate (c.update_epochs * c.num_minibatches) TrainEvent.minibatchUpdate
    else [TrainEvent.assertFailure])

/-- The `reshape [num_minibatches, -1]` of `_update_epoch`: split the
shuffled batch into `num_minibatches` contiguous chunks of
`minibatch_size` elements each. -/
def chunk_minibatches (c : TrainConfig) {α : Type} (l : List α) : List (List α) :=
  (List.range c.num_minibatches).map
    (fun i => (l.drop (i * c.minibatch_size)).take c.minibatch_size)

/-- `linear_schedule` from `train`:
`frac = 1.0 - (count // (num_minibatches * update_epochs)) / num_updates`,
`return lr * frac`.  The inner division is Python integer floor division. -/
def linear_schedule (c : TrainConfig) (count : ℕ) : ℚ :=
  c.lr * (1 - ((count / (c.num_minibatches * c.update_epochs) : ℕ) : ℚ) / (c.num_updates : ℚ))

/-- The schedule as the spec words it: multiply the base learning rate by
`1 - completed_minibatch_steps / total_planned_minibatch_steps` with
`total_planned_minibatch_steps = num_updates * update_epochs * num_minibatches`. -/
def linear_schedule_spec (c : TrainConfig) (count : ℕ) : ℚ :=
  c.lr * (1 - (count : ℚ) / ((c.num_updates * c.update_epochs * c.num_minibatches : ℕ) : ℚ))

/-- `optax.linear_schedule(init_value=1., end_value=0., transition_steps=h)`:
the weight at count `t` is `1 - min(t, h) / h` (clipped linear decay). -/
def rew_shaping_anneal (h : ℕ) (t : ℕ) : ℚ :=
  1 - ((min t h : ℕ) : ℚ) / (h : ℚ)

/-- Inputs of one `_env_step` call, abstracting the environment and the
network collaborators: per-actor action-probability rows, sampled actions,
value estimates and log-probabilities produced by `network.apply` and
`pi.sample` for the trainee parameters (`train_state.params`) and for each
population member, plus the per-agent per-env rewards returned by the
environment step.  Actors are indexed `0 .. num_actors-1`
(actor `j` is agent `j / num_envs`, env `j % num_envs` after `batchify`);
actions are `0 .. 5`. -/
structure EnvStepInputs where
  P : ℕ
  currIdx : ℕ
  trainee_probs : ℕ → ℕ → ℚ
  trainee_action : ℕ → ℕ
  trainee_value : ℕ → ℚ
  trainee_log_prob : ℕ → ℚ
  pop_probs : ℕ → ℕ → ℕ → ℚ
  pop_action : ℕ → ℕ → ℕ
  pop_value : ℕ → ℕ → ℚ
  pop_log_prob : ℕ → ℕ → ℚ
  orig_reward : ℕ → ℕ → ℚ
  shaped_reward : ℕ → ℕ → ℚ
  ent_pop_coeff : ℚ
  rew_shaping_horizon : ℕ
  update_step : ℕ
  num_steps : ℕ
  num_envs : ℕ

/-- Carry of the Python `for i in range(population_size)` loop in
`_env_step`: the loop re-binds `action`, `value` and `log_prob` at every
iteration (shadowing the trainee's values sampled before the loop) while
filling `actions_np` and `action_probs_np` row by row. -/
structure LoopCarry where
  action : ℕ → ℕ
  value : ℕ → ℚ
  log_prob : ℕ → ℚ
  actions_np : List (ℕ → ℕ)
  action_probs_np : List (ℕ → ℕ → ℚ)

/-- The population loop of `_env_step` (lines 225-231): starts from the
trainee's sampled `action`, `value`, `log_prob` and overwrites them with
each population member's in turn. -/
def populationLoop (inp : EnvStepInputs) : LoopCarry :=
  (List.range inp.P).foldl
    (fun c i =>
      { action := inp.pop_action i
        value := inp.pop_value i
        log_prob := inp.pop_log_prob i
        actions_np := c.actions_np ++ [inp.pop_action i]
        action_probs_np := c.action_probs_np ++ [inp.pop_probs i] })
    { action := inp.trainee_action
      value := inp.trainee_value
      log_prob := inp.trainee_log_prob
      actions_np := []
      action_probs_np := [] }

/-- The `action` array used for `env_act` and stored in the `Transition`
after the loop (the loop-final binding of `action`). -/
def stored_action (inp : EnvStepInputs) : ℕ → ℕ := (populationLoop inp).action

/-- The `value` array stored in the `Transition` (loop-final binding). -/
def stored_value (inp : EnvStepInputs) : ℕ → ℚ := (populationLoop inp).value

/-- The `log_prob` array stored in the `Transition` (loop-final binding). -/
def stored_log_prob (inp : EnvStepInputs) : ℕ → ℚ := (populationLoop inp).log_prob

/-- `jnp.mean(rows, axis=0)` over the population axis. -/
def meanRows (rows : List (ℕ → ℕ → ℚ)) : ℕ → ℕ → ℚ :=
  fun a k => (rows.map (fun r => r a k)).sum / (rows.length : ℚ)

/-- `jnp.take(arr, i)` with no axis argument flattens the `(num_actors, 6)`
array in row-major order before indexing: flat index `i` addresses row
`i / 6`, column `i % 6`. -/
def flatTake (f : ℕ → ℕ → ℚ) (i : ℕ) : ℚ := f (i / 6) (i % 6)

/-- `jnp.delete(action_probs_np, curr_agent_idx, axis=0)`: the population
probability rows with the trainee's slot removed. -/
def action_probs_del (inp : EnvStepInputs) : List (ℕ → ℕ → ℚ) :=
  (populationLoop inp).action_probs_np.eraseIdx inp.currIdx

/-- `action_probs_pop_np_new = jnp.mean(jnp.append(action_probs_np,
action_probs_agent0, axis=0), axis=0)`: the population mix including the
trainee's probability row, equally weighted. -/
def action_probs_pop_new_mix (inp : EnvStepInputs) : ℕ → ℕ → ℚ :=
  meanRows (action_probs_del inp ++ [inp.trainee_probs])

/-- `sampled_action_prob_pop_np_new = jnp.take(action_probs_pop_np_new, actions)`
where `actions` is the trainee's sampled action vector saved before the
loop; the flattening semantics of `jnp.take` apply. -/
def sampled_action_prob_pop_new (inp : EnvStepInputs) (j : ℕ) : ℚ :=
  flatTake (action_probs_pop_new_mix inp) (inp.trainee_action j)

/-- `neg_logp_pop_new = -jnp.log(sampled_action_prob_pop_np_new)`. -/
noncomputable def neg_logp_pop_new (inp : EnvStepInputs) (j : ℕ) : ℝ :=
  - Real.log ((sampled_action_prob_pop_new inp j : ℚ) : ℝ)

/-- Line 270: `reward = orig_reward + shaped_reward * rew_shaping_anneal(current_timestep)`
with `current_timestep = update_step * num_steps * num_envs`, per agent `g`
and env `e`, before the diversity bonus is added. -/
def reward_after_shaping (inp : EnvStepInputs) (g e : ℕ) : ℚ :=
  inp.orig_reward g e +
    inp.shaped_reward g e *
      rew_shaping_anneal inp.rew_shaping_horizon (inp.update_step * inp.num_steps * inp.num_envs)

/-- Lines 271-273: the dict `{"agent_0": neg_logp_pop_new[0], "agent_1":
neg_logp_pop_new[1]}` is built from the un-reshaped actor vector (the
reshape on the previous line is dead), so each agent `g` receives the
scalar `neg_logp_pop_new g` broadcast over all of its envs:
`reward = reward + neg_logp_pop_new_a * ent_pop_coeff`. -/
noncomputable def step_reward (inp : EnvStepInputs) (g e : ℕ) : ℝ :=
  ((reward_after_shaping inp g e : ℚ) : ℝ) +
    ((inp.ent_pop_coeff : ℚ) : ℝ) * neg_logp_pop_new inp g

/-- The `entropy` helper of the source: `sum(-p * log p)` over one
probability row of length `n` (the action axis). -/
noncomputable def entropy {n : ℕ} (p : Fin n → ℝ) : ℝ :=
  ∑ i, -(p i * Real.log (p i))

/-- One transition as consumed by `_calculate_gae`. -/
structure GaeTransition where
  done : ℚ
  value : ℚ
  reward : ℚ
deriving DecidableEq

/-- `_get_advantages`: one step of the reverse scan. -/
def get_advantages (g lam : ℚ) (carry : ℚ × ℚ) (t : GaeTransition) : (ℚ × ℚ) × ℚ :=
  let gae := carry.1
  let next_value := carry.2
  let delta := t.reward + g * next_value * (1 - t.done) - t.value
  let gae2 := delta + g * lam * (1 - t.done) * gae
  ((gae2, t.value), gae2)

/-- `jax.lax.scan(_get_advantages, (0, last_val), traj_batch, reverse=True)`:
the carry flows from the last transition to the first; outputs are in
original time order. -/
def scan_rev (g lam : ℚ) : List GaeTransition → (ℚ × ℚ) → ((ℚ × ℚ) × List ℚ)
  | [], c => (c, [])
  | t :: rest, c =>
    let r := scan_rev g lam rest c
    let s := get_advantages g lam r.1 t
    (s.1, s.2 :: r.2)

/-- `_calculate_gae`: returns `(advantages, advantages + traj_batch.value)`. -/
def calculate_gae (g lam : ℚ) (traj : List GaeTransition) (last_val : ℚ) :
    List ℚ × List ℚ :=
  let advantages := (scan_rev g lam traj (0, last_val)).2
  (advantages, List.zipWith (fun a b => a + b) advantages (traj.map GaeTransition.value))

/-- `other_agent_idcs = all_agent_idcs[all_agent_idcs != idx]` for
`all_agent_idcs = jnp.arange(population_size)`. -/
def other_indices (n idx : ℕ) : List ℕ :=
  (List.range n).filter (fun i => i != idx)

/-- The mutable state threaded through the rotation at the end of each
iteration of `train`. -/
structure PopState (Params : Type) where
  population : List Params
  params : Params
  curr_agent_idx : ℕ
  other_agent_idcs : List ℕ

/-- Lines 535-547 of `train`, one iteration: draw `new_param_idx`, read
`new_params_to_train = population[new_param_idx]` BEFORE writing
`population[old_param_idx] = train_state.params`, then install the new
index bookkeeping.  `trained` is the freshly optimized parameter value
(`train_state.params` after the update step), `newIdx` the drawn index;
`old_param_idx` equals the state's current trainee index. -/
def rotate_state {Params : Type} (dflt : Params) (P : ℕ)
    (s : PopState Params) (trained : Params) (newIdx : ℕ) : PopState Params :=
  let new_params_to_train := s.population.getD newIdx dflt
  let population := s.population.set s.curr_agent_idx trained
  { population := population
    params := new_params_to_train
    curr_agent_idx := newIdx
    other_agent_idcs := other_indices P newIdx }

/-- The rotation loop of `train`: fold the per-iteration rotation over the
list of (freshly optimized parameters, drawn index) pairs. -/
def run_rotations {Params : Type} (dflt : Params) (P : ℕ)
    (s0 : PopState Params) (steps : List (Params × ℕ)) : PopState Params :=
  steps.foldl (fun s st => rotate_state dflt P s st.1 st.2) s0

/-- The pre-loop rotation draws of `train`: `key = jax.random.PRNGKey(0)`
(a constant, NOT derived from `config.seed`); the initial trainee index is
`choice(key, population_size)`; each iteration does
`key, _key = split(key)` and draws `choice(_key, population_size)`.
`K` is the abstract key type, `split` and `choice` the abstract PRNG
operations. -/
def rotation_draws {K : Type} (split : K → K × K) (choice : K → ℕ → ℕ)
    (P : ℕ) : ℕ → K → List ℕ
  | 0, _ => []
  | n + 1, key =>
    let ks := split key
    choice ks.2 P :: rotation_draws split choice P n ks.1

/-- The seed-dependent training key (`rng = jax.random.PRNGKey(config.seed)`,
used for network init, action sampling and env resets) together with the
full sequence of trainee indices (initial pick plus one draw per update),
which is derived from the constant key `jax.random.PRNGKey(0)`. -/
def train_run {K : Type} (prng_key : ℕ → K) (split : K → K × K)
    (choice : K → ℕ → ℕ) (P num_updates seed : ℕ) : K × List ℕ :=
  let rng := prng_key seed
  let key := prng_key 0
  let param_idx := choice key P
  (rng, param_idx :: rotation_draws split choice P num_updates key)

/-- The concrete configuration used for the learning-rate schedule claim:
`lr = 1`, `num_minibatches = 4`, `update_epochs = 4`, `num_updates = 10`. -/
def cEx5 : TrainConfig :=
  { population_size := 2, ent_pop_coeff := 1 / 100, rew_shaping_horizon := 10,
    seed := 42, lr := 1, num_envs := 1, num_steps := 1, total_timesteps := 10,
    update_epochs := 4, num_minibatches := 4 }

/-- The bad configuration for the batch-size claim: `num_steps = 1`,
`num_envs = 1` (so `num_actors = 2`), `num_minibatches = 4`; then
`minibatch_size = 2 // 4 = 0` and `0 * 4 ≠ 1 * 2`. -/
def cBad4 : TrainConfig :=
  { population_size := 2, ent_pop_coeff := 1 / 100, rew_shaping_horizon := 10,
    seed := 0, lr := 1, num_envs := 1, num_steps := 1, total_timesteps := 10,
    update_epochs := 4, num_minibatches := 4 }

/-- A valid configuration for the batch-size claim: `num_steps = 2`,
`num_envs = 1` (so `num_actors = 2`), `num_minibatches = 4`,
`minibatch_size = 4 // 4 = 1`. -/
def cGood4 : TrainConfig :=
  { population_size := 2, ent_pop_coeff := 1 / 100, rew_shaping_horizon := 10,
    seed := 0, lr := 1, num_envs := 1, num_steps := 2, total_timesteps := 10,
    update_epochs := 4, num_minibatches := 4 }

/-- Concrete `_env_step` inputs: one population member (`P = 1`), one env
(two actors), trainee slot `0`; the trainee samples action `2` for every
actor while population member `0` samples action `3`, and the trainee's
value and log-probability estimates differ from the member's. -/
def exC1 : EnvStepInputs :=
  { P := 1
    currIdx := 0
    trainee_probs := fun _ _ => 1 / 6
    trainee_action := fun _ => 2
    trainee_value := fun _ => 5
    trainee_log_prob := fun _ => -1
    pop_probs := fun _ _ _ => 1 / 6
    pop_action := fun _ _ => 3
    pop_value := fun _ _ => 7
    pop_log_prob := fun _ _ => -2
    orig_reward := fun _ _ => 0
    shaped_reward := fun _ _ => 0
    ent_pop_coeff := 1 / 100
    rew_shaping_horizon := 10
    update_step := 0
    num_steps := 4
    num_envs := 1 }

/-- Concrete `_env_step` inputs for the diversity-bonus claim: one
population member (`P = 1`, so the trainee-inclusive mix equals the
trainee's own probability rows), one env (two actors); both actors sample
action `1`; the mix assigns probability `1/2` to action `1` in actor 0's
row and `1/4` in actor 1's row. -/
def exC2 : EnvStepInputs :=
  { P := 1
    currIdx := 0
    trainee_probs := fun a k =>
      if a = 0 then (if k = 1 then 1 / 2 else 1 / 10)
      else (if k = 1 then 1 / 4 else 3 / 20)
    trainee_action := fun _ => 1
    trainee_value := fun _ => 0
    trainee_log_prob := fun _ => 0
    pop_probs := fun _ _ _ => 1 / 6
    pop_action := fun _ _ => 0
    pop_value := fun _ _ => 0
    pop_log_prob := fun _ _ => 0
    orig_reward := fun _ _ => 0
    shaped_reward := fun _ _ => 0
    ent_pop_coeff := 1
    rew_shaping_horizon := 10
    update_step := 0
    num_steps := 4
    num_envs := 1 }

/-! ## Theorems -/

/-- C10: the sequence of trainee indices (initial pick and every rotation
draw) is a function of the constant key `PRNGKey(0)` only; two runs whose
configurations differ only in the configured random seed draw the same
index sequence. -/
theorem trainee_draws_seed_independent {K : Type} (prng_key : ℕ → K)
    (split : K → K × K) (choice : K → ℕ → ℕ) (P n s1 s2 : ℕ) :
    (train_run prng_key split choice P n s1).2 =
      (train_run prng_key split choice P n s2).2 := rfl

/-- C3 counterexample: with a one-member population holding parameters `0`,
stale trainee parameters `0`, freshly optimized parameters `1`, and the new
drawn index equal to the old index (`0`), the parameters checked out for
the next iteration are the stale entry `0`, not the population's entry `1`
at the drawn index after reinsertion: `population[new_param_idx]` is read
before `population[old_param_idx]` is overwritten. -/
theorem checkout_before_reinsert_cex :
    (rotate_state 0 1 ⟨[0], 0, 0, []⟩ 1 0).params ≠
        (rotate_state 0 1 ⟨[0], 0, 0, []⟩ 1 0).population.getD 0 0 ∧
      (rotate_state 0 1 ⟨[0], 0, 0, []⟩ 1 0).population.getD 0 0 = 1 := by
  decide

/-- C3 amended: the freshly optimized parameters are reinserted into the
previous trainee's slot, and whenever the newly drawn index differs from
the previous trainee index the checked-out parameters equal the
population's entry at the new index after reinsertion; when the two
indices coincide the checkout instead returns the stale pre-reinsertion
entry (the read happens before the write). -/
theorem rotate_reinserts_and_checks_out {Params : Type} (dflt : Params)
    (P : ℕ) (s : PopState Params) (trained : Params) (newIdx : ℕ)
    (h1 : s.curr_agent_idx < s.population.length)
    (h2 : newIdx ≠ s.curr_agent_idx) :
    (rotate_state dflt P s trained newIdx).population.getD s.curr_agent_idx dflt
        = trained ∧
      (rotate_state dflt P s trained newIdx).params =
        (rotate_state dflt P s trained newIdx).population.getD newIdx dflt := by
  constructor
  · simp [rotate_state, List.getD_eq_getElem?_getD, List.getElem?_set_self,
      h1]
  · simp [rotate_state, List.getD_eq_getElem?_getD,
      List.getElem?_set_ne (Ne.symm h2)]

/-- C3 witness: a concrete rotation with distinct old and new indices. -/
theorem rotate_reinserts_and_checks_out_witness :
    ((⟨[5, 6], 9, 0, [1]⟩ : PopState ℕ).curr_agent_idx <
          (⟨[5, 6], 9, 0, [1]⟩ : PopState ℕ).population.length ∧
        (1 : ℕ) ≠ (⟨[5, 6], 9, 0, [1]⟩ : PopState ℕ).curr_agent_idx) ∧
      (rotate_state 0 2 (⟨[5, 6], 9, 0, [1]⟩ : PopState ℕ) 7 1).population.getD
            (⟨[5, 6], 9, 0, [1]⟩ : PopState ℕ).curr_agent_idx 0 = 7 ∧
        (rotate_state 0 2 (⟨[5, 6], 9, 0, [1]⟩ : PopState ℕ) 7 1).params =
          (rotate_state 0 2 (⟨[5, 6], 9, 0, [1]⟩ : PopState ℕ) 7 1).population.getD 1 0 :=
  ⟨⟨by decide, by decide⟩,
    rotate_reinserts_and_checks_out 0 2 ⟨[5, 6], 9, 0, [1]⟩ 7 1 (by decide)
      (by decide)⟩

/-- C5 counterexample: after one completed minibatch step (`count = 1`) the
code's learning rate is still the full base rate (the schedule floors the
count to whole updates), while the claimed formula gives
`1 - 1/160` of the base rate. -/
theorem linear_schedule_cex :
    linear_schedule cEx5 1 ≠ linear_schedule_spec cEx5 1 ∧
      linear_schedule cEx5 1 = 1 ∧ linear_schedule_spec cEx5 1 = 159 / 160 := by
  have h1 : linear_schedule cEx5 1 = 1 := by
    have : ((1 : ℕ) / (cEx5.num_minibatches * cEx5.update_epochs) : ℕ) = 0 := by
      decide
    rw [linear_schedule, this]
    norm_num [cEx5]
  have h2 : linear_schedule_spec cEx5 1 = 159 / 160 := by
    have : (cEx5.num_updates * cEx5.update_epochs * cEx5.num_minibatches : ℕ) = 160 := by
      decide
    rw [linear_schedule_spec, this]
    norm_num [cEx5]
  refine ⟨?_, h1, h2⟩
  rw [h1, h2]
  norm_num

/-- C5 amended: the code anneals in a staircase per completed update,
`lr * (1 - (count // (num_minibatches * update_epochs)) / num_updates)`;
this agrees with the claimed per-minibatch-step formula exactly at counts
that are whole multiples of `update_epochs * num_minibatches` (update
boundaries), and differs inside an update. -/
theorem linear_schedule_staircase (c : TrainConfig) (k : ℕ)
    (h1 : 0 < c.num_updates) (h2 : 0 < c.num_minibatches * c.update_epochs) :
    linear_schedule c (k * (c.num_minibatches * c.update_epochs)) =
      linear_schedule_spec c (k * (c.num_minibatches * c.update_epochs)) := by
  unfold linear_schedule linear_schedule_spec
  rw [Nat.mul_div_cancel k h2]
  have hU : (c.num_updates : ℚ) ≠ 0 := Nat.cast_ne_zero.mpr h1.ne'
  have hM : (c.num_minibatches : ℚ) ≠ 0 := by
    have hm : c.num_minibatches ≠ 0 := by
      intro h
      rw [h] at h2
      simp at h2
    exact Nat.cast_ne_zero.mpr hm
  have hE : (c.update_epochs : ℚ) ≠ 0 := by
    have he : c.update_epochs ≠ 0 := by
      intro h
      rw [h] at h2
      simp at h2
    exact Nat.cast_ne_zero.mpr he
  push_cast
  field_simp
  ring

/-- C5 witness: at the update boundary `count = 2 * (4 * 4) = 32` the two
formulas agree on the concrete configuration. -/
theorem linear_schedule_staircase_witness :
    (0 < cEx5.num_updates ∧ 0 < cEx5.num_minibatches * cEx5.update_epochs) ∧
      linear_schedule cEx5 (2 * (cEx5.num_minibatches * cEx5.update_epochs)) =
        linear_schedule_spec cEx5 (2 * (cEx5.num_minibatches * cEx5.update_epochs)) :=
  ⟨⟨by decide, by decide⟩, linear_schedule_staircase cEx5 2 (by decide) (by decide)⟩

/-- Joining the `num_minibatches` contiguous chunks of size `k` recovers
the original list when the length is exactly `n * k`. -/
theorem chunks_flatten {α : Type} (k : ℕ) :
    ∀ (n : ℕ) (l : List α), l.length = n * k →
      ((List.range n).map (fun i => (l.drop (i * k)).take k)).flatten = l := by
  intro n
  induction n with
  | zero =>
    intro l hl
    simp only [Nat.zero_mul] at hl
    simp [List.length_eq_zero.mp hl]
  | succ n ih =>
    intro l hl
    have hlen : (l.drop k).length = n * k := by
      rw [List.length_drop, hl, Nat.succ_mul]
      omega
    have key := ih (l.drop k) hlen
    rw [List.range_succ_eq_map, List.map_cons, List.map_map]
    have hmap : ((List.range n).map ((fun i => (l.drop (i * k)).take k) ∘ Nat.succ)) =
        (List.range n).map (fun i => ((l.drop k).drop (i * k)).take k) := by
      apply List.map_congr_left
      intro i _
      have hik : Nat.succ i * k = k + i * k := by
        rw [Nat.succ_mul, Nat.add_comm]
      simp only [Function.comp_apply, hik, ← List.drop_drop]
    rw [hmap, List.flatten_cons, key]
    simp

/-- C4 counterexample: on an invalid configuration the first `_update_step`
performs its environment step (trajectory collection) and only then hits
the failing `assert` inside `_update_epoch`; the abort does not happen
before trajectory collection, and `__post_init__` performs no check. -/
theorem assert_after_collection_cex :
    batch_size_ok cBad4 = false ∧
      update_step_events cBad4 = [TrainEvent.envStep, TrainEvent.assertFailure] := by
  decide

/-- C4 amended: for valid configurations
(`minibatch_size * num_minibatches == num_steps * num_actors` with
non-empty minibatches) the batch is split into `num_minibatches` equal,
non-overlapping, non-empty minibatches whose concatenation is the whole
(shuffled) batch; invalid configurations abort at the first update epoch
of the first iteration — after that iteration's trajectory collection and
before any minibatch gradient update — not before any training iteration. -/
theorem minibatch_partition_and_late_assert {α : Type} (c : TrainConfig)
    (l : List α) (h1 : batch_size_ok c = true)
    (h2 : l.length = c.num_steps * c.num_actors) (h3 : 0 < c.minibatch_size) :
    ((chunk_minibatches c l).length = c.num_minibatches ∧
        (∀ m ∈ chunk_minibatches c l, m.length = c.minibatch_size ∧ m ≠ []) ∧
        (chunk_minibatches c l).flatten = l) ∧
      ∀ c' : TrainConfig, batch_size_ok c' = false →
        update_step_events c' =
            List.replicate c'.num_steps TrainEvent.envStep ++
              [TrainEvent.assertFailure] ∧
          TrainEvent.minibatchUpdate ∉ update_step_events c' := by
  have hbs : c.minibatch_size * c.num_minibatches = c.num_steps * c.num_actors := by
    simpa [batch_size_ok] using h1
  have hlen : l.length = c.num_minibatches * c.minibatch_size := by
    rw [h2, ← hbs, Nat.mul_comm]
  refine ⟨⟨?_, ?_, ?_⟩, ?_⟩
  · simp [chunk_minibatches]
  · intro m hm
    simp only [chunk_minibatches, List.mem_map, List.mem_range] at hm
    obtain ⟨i, hi, rfl⟩ := hm
    have hik : i * c.minibatch_size + c.minibatch_size ≤
        c.num_minibatches * c.minibatch_size := by
      have h := Nat.mul_le_mul_right c.minibatch_size (Nat.succ_le_of_lt hi)
      simpa [Nat.succ_mul] using h
    have hl : ((l.drop (i * c.minibatch_size)).take c.minibatch_size).length =
        c.minibatch_size := by
      simp only [List.length_take, List.length_drop, hlen]
      omega
    refine ⟨hl, ?_⟩
    intro hnil
    rw [hnil] at hl
    simp at hl
    omega
  · exact chunks_flatten c.minibatch_size c.num_minibatches l hlen
  · intro c' hbad
    constructor
    · simp [update_step_events, hbad]
    · simp [update_step_events, hbad, List.mem_replicate]

/-- C4 witness: a valid configuration (`num_steps = 2`, `num_envs = 1`,
`num_minibatches = 4`, so `minibatch_size = 1`) and a batch of 4 elements. -/
theorem minibatch_partition_witness :
    (batch_size_ok cGood4 = true ∧
        ([0, 1, 2, 3] : List ℕ).length = cGood4.num_steps * cGood4.num_actors ∧
        0 < cGood4.minibatch_size) ∧
      ((chunk_minibatches cGood4 ([0, 1, 2, 3] : List ℕ)).length =
            cGood4.num_minibatches ∧
          (∀ m ∈ chunk_minibatches cGood4 ([0, 1, 2, 3] : List ℕ),
            m.length = cGood4.minibatch_size ∧ m ≠ []) ∧
          (chunk_minibatches cGood4 ([0, 1, 2, 3] : List ℕ)).flatten =
            ([0, 1, 2, 3] : List ℕ)) ∧
        ∀ c' : TrainConfig, batch_size_ok c' = false →
          update_step_events c' =
              List.replicate c'.num_steps TrainEvent.envStep ++
                [TrainEvent.assertFailure] ∧
            TrainEvent.minibatchUpdate ∉ update_step_events c' :=
  ⟨⟨by decide, by decide, by decide⟩,
    (minibatch_partition_and_late_assert cGood4 ([0, 1, 2, 3] : List ℕ)
        (by decide) (by decide) (by decide)).1,
    (minibatch_partition_and_late_assert cGood4 ([0, 1, 2, 3] : List ℕ)
        (by decide) (by decide) (by decide)).2⟩

/-- The trainee index is never an element of its own other-indices set. -/
theorem not_mem_other_indices_self (n i : ℕ) : i ∉ other_indices n i := by
  simp [other_indices, List.mem_filter]

/-- C7: starting from a state whose population has exactly
`population_size` entries and whose other-indices set is derived from the
current trainee index, these invariants hold after any number of rotation
iterations; the current trainee index is never contained in the
other-indices set, and `other_indices` is deterministic in its arguments. -/
theorem population_invariants {Params : Type} (dflt : Params) (P : ℕ)
    (s0 : PopState Params) (steps : List (Params × ℕ))
    (h1 : s0.population.length = P)
    (h2 : s0.other_agent_idcs = other_indices P s0.curr_agent_idx) :
    ((run_rotations dflt P s0 steps).population.length = P ∧
        (run_rotations dflt P s0 steps).curr_agent_idx ∉
          (run_rotations dflt P s0 steps).other_agent_idcs ∧
        (run_rotations dflt P s0 steps).other_agent_idcs =
          other_indices P (run_rotations dflt P s0 steps).curr_agent_idx) ∧
      ∀ n i : ℕ, other_indices n i = other_indices n i := by
  refine ⟨?_, fun n i => rfl⟩
  induction steps generalizing s0 with
  | nil =>
    refine ⟨h1, ?_, h2⟩
    show s0.curr_agent_idx ∉ s0.other_agent_idcs
    rw [h2]
    exact not_mem_other_indices_self P s0.curr_agent_idx
  | cons st rest ih =>
    have hstep : run_rotations dflt P s0 (st :: rest) =
        run_rotations dflt P (rotate_state dflt P s0 st.1 st.2) rest := rfl
    rw [hstep]
    exact ih (rotate_state dflt P s0 st.1 st.2)
      (by simp [rotate_state, h1]) rfl

/-- C7 witness: two concrete rotations on a two-member population. -/
theorem population_invariants_witness :
    ((⟨[3, 4], 3, 0, other_indices 2 0⟩ : PopState ℕ).population.length = 2 ∧
        (⟨[3, 4], 3, 0, other_indices 2 0⟩ : PopState ℕ).other_agent_idcs =
          other_indices 2
            (⟨[3, 4], 3, 0, other_indices 2 0⟩ : PopState ℕ).curr_agent_idx) ∧
      ((run_rotations 0 2 (⟨[3, 4], 3, 0, other_indices 2 0⟩ : PopState ℕ)
              [(9, 1), (11, 1)]).population.length = 2 ∧
          (run_rotations 0 2 (⟨[3, 4], 3, 0, other_indices 2 0⟩ : PopState ℕ)
              [(9, 1), (11, 1)]).curr_agent_idx ∉
            (run_rotations 0 2 (⟨[3, 4], 3, 0, other_indices 2 0⟩ : PopState ℕ)
              [(9, 1), (11, 1)]).other_agent_idcs ∧
          (run_rotations 0 2 (⟨[3, 4], 3, 0, other_indices 2 0⟩ : PopState ℕ)
              [(9, 1), (11, 1)]).other_agent_idcs =
            other_indices 2
              (run_rotations 0 2 (⟨[3, 4], 3, 0, other_indices 2 0⟩ : PopState ℕ)
                [(9, 1), (11, 1)]).curr_agent_idx) ∧
        ∀ n i : ℕ, other_indices n i = other_indices n i :=
  ⟨⟨by decide, by decide⟩,
    population_invariants 0 2 ⟨[3, 4], 3, 0, other_indices 2 0⟩
      [(9, 1), (11, 1)] (by decide) (by decide)⟩

/-- Zipping a list with a replicate of its own length applies the
operation pointwise with the constant. -/
theorem zipWith_replicate_right {α β γ : Type} (op : α → β → γ) (c : β) :
    ∀ l : List α, List.zipWith op l (List.replicate l.length c) =
      l.map (fun a => op a c) := by
  intro l
  induction l with
  | nil => rfl
  | cons a l ih => simp [List.replicate_succ, ih]

/-- Closed form of the reverse GAE scan on a constant trajectory: on
`n` transitions with `done = 0`, `value = v`, `reward = r` and carry
seeded with `(0, v)`, the carry is the full geometric sum and the output
at position `t` is the geometric sum of length `n - t`, all times the
constant one-step residual `r + g*v - v`. -/
theorem scan_rev_replicate (g lam v r : ℚ) :
    ∀ n : ℕ, scan_rev g lam (List.replicate n ⟨0, v, r⟩) (0, v) =
      (((∑ k ∈ Finset.range n, (g * lam) ^ k) * (r + g * v - v), v),
        (List.range n).map
          (fun t => (∑ k ∈ Finset.range (n - t), (g * lam) ^ k) * (r + g * v - v))) := by
  intro n
  induction n with
  | zero => simp [scan_rev]
  | succ n ih =>
    have hlist : (List.range (n + 1)).map
        (fun t => (∑ k ∈ Finset.range (n + 1 - t), (g * lam) ^ k) * (r + g * v - v)) =
        ((∑ k ∈ Finset.range (n + 1), (g * lam) ^ k) * (r + g * v - v)) ::
          (List.range n).map
            (fun t => (∑ k ∈ Finset.range (n - t), (g * lam) ^ k) * (r + g * v - v)) := by
      rw [List.range_succ_eq_map, List.map_cons, List.map_map]
      simp [Function.comp_def, Nat.succ_sub_succ]
    rw [List.replicate_succ]
    simp only [scan_rev, ih, get_advantages, hlist, Prod.mk.injEq, List.cons.injEq]
    repeat' constructor
    all_goals first
    | rfl
    | (rw [geom_sum_succ]; ring)

/-- C6: on a trajectory of `T` constant transitions (`done = 0`, reward
`r`, value `v`) with bootstrap value `v`, the advantage at each timestep
`t < T` equals the closed-form geometric series
`(Σ_{k<T-t} (g*lam)^k) * (r + g*v - v)` and the value target equals that
advantage plus `v`. -/
theorem gae_constant_closed_form (g lam v r : ℚ) (T t : ℕ) (h : t < T) :
    (calculate_gae g lam (List.replicate T ⟨0, v, r⟩) v).1.getD t 0 =
        (∑ k ∈ Finset.range (T - t), (g * lam) ^ k) * (r + g * v - v) ∧
      (calculate_gae g lam (List.replicate T ⟨0, v, r⟩) v).2.getD t 0 =
        (∑ k ∈ Finset.range (T - t), (g * lam) ^ k) * (r + g * v - v) + v := by
  have hadv : (calculate_gae g lam (List.replicate T ⟨0, v, r⟩) v).1 =
      (List.range T).map
        (fun s => (∑ k ∈ Finset.range (T - s), (g * lam) ^ k) * (r + g * v - v)) := by
    simp [calculate_gae, scan_rev_replicate]
  have htar : (calculate_gae g lam (List.replicate T ⟨0, v, r⟩) v).2 =
      (List.range T).map
        (fun s => (∑ k ∈ Finset.range (T - s), (g * lam) ^ k) * (r + g * v - v) + v) := by
    have h1 : (calculate_gae g lam (List.replicate T ⟨0, v, r⟩) v).2 =
        List.zipWith (fun a b => a + b)
          ((List.range T).map
            (fun s => (∑ k ∈ Finset.range (T - s), (g * lam) ^ k) * (r + g * v - v)))
          (List.replicate T v) := by
      simp [calculate_gae, scan_rev_replicate, List.map_replicate]
    rw [h1]
    have h2 := zipWith_replicate_right (fun a b => a + b) v
      ((List.range T).map
        (fun s => (∑ k ∈ Finset.range (T - s), (g * lam) ^ k) * (r + g * v - v)))
    simp only [List.length_map, List.length_range] at h2
    rw [h2, List.map_map]
    simp [Function.comp_def]
  constructor
  · rw [hadv, List.getD_eq_getElem?_getD, List.getElem?_map, List.getElem?_range h]
    rfl
  · rw [htar, List.getD_eq_getElem?_getD, List.getElem?_map, List.getElem?_range h]
    rfl

/-- C6 witness: `g = lam = 1/2`, `v = 0`, `r = 1`, two timesteps,
`t = 0`: advantage `5/4`, target `5/4`. -/
theorem gae_constant_closed_form_witness :
    (0 : ℕ) < 2 ∧
      ((calculate_gae (1 / 2) (1 / 2) (List.replicate 2 ⟨0, 0, 1⟩) 0).1.getD 0 0 =
          (∑ k ∈ Finset.range (2 - 0), ((1 : ℚ) / 2 * (1 / 2)) ^ k) *
            (1 + (1 : ℚ) / 2 * 0 - 0) ∧
        (calculate_gae (1 / 2) (1 / 2) (List.replicate 2 ⟨0, 0, 1⟩) 0).2.getD 0 0 =
          (∑ k ∈ Finset.range (2 - 0), ((1 : ℚ) / 2 * (1 / 2)) ^ k) *
            (1 + (1 : ℚ) / 2 * 0 - 0) + 0) :=
  ⟨by decide, gae_constant_closed_form (1 / 2) (1 / 2) 0 1 2 0 (by decide)⟩

/-- C8: for a probability row in which every action keeps strictly
positive mass and the masses sum to one, the categorical entropy computed
by `entropy` is non-negative and at most `log n` for `n` actions. -/
theorem entropy_bounds {n : ℕ} (p : Fin n → ℝ) (hp : ∀ i, 0 < p i)
    (hsum : ∑ i, p i = 1) : 0 ≤ entropy p ∧ entropy p ≤ Real.log (n : ℝ) := by
  have hle1 : ∀ i, p i ≤ 1 := by
    intro i
    have h := Finset.single_le_sum (f := p) (fun j _ => (hp j).le) (Finset.mem_univ i)
    rw [hsum] at h
    exact h
  have h0 : 0 ≤ entropy p := by
    unfold entropy
    apply Finset.sum_nonneg
    intro i _
    have h := Real.negMulLog_nonneg (hp i).le (hle1 i)
    simpa [Real.negMulLog] using h
  have hcc : ConcaveOn ℝ (Set.Ioi (0 : ℝ)) Real.log :=
    strictConcaveOn_log_Ioi.concaveOn
  have hw0 : ∀ i ∈ (Finset.univ : Finset (Fin n)), 0 ≤ p i := fun i _ => (hp i).le
  have hw1 : ∑ i ∈ (Finset.univ : Finset (Fin n)), p i = 1 := hsum
  have hmem : ∀ i ∈ (Finset.univ : Finset (Fin n)),
      (p i)⁻¹ ∈ Set.Ioi (0 : ℝ) := fun i _ => Set.mem_Ioi.mpr (inv_pos.mpr (hp i))
  have hj := hcc.le_map_sum hw0 hw1 hmem
  have hL : ∑ i, p i • Real.log ((p i)⁻¹) = entropy p := by
    unfold entropy
    apply Finset.sum_congr rfl
    intro i _
    rw [smul_eq_mul, Real.log_inv]
    ring
  have hR : (∑ i, p i • (p i)⁻¹) = (n : ℝ) := by
    have hone : ∀ i ∈ (Finset.univ : Finset (Fin n)), p i • (p i)⁻¹ = (1 : ℝ) := by
      intro i _
      rw [smul_eq_mul, mul_inv_cancel₀ (hp i).ne']
    rw [Finset.sum_congr rfl hone]
    simp
  rw [hL, hR] at hj
  exact ⟨h0, hj⟩

/-- C8 witness: the uniform row over the six Overcooked actions. -/
theorem entropy_bounds_witness :
    ((∀ i : Fin 6, 0 < (fun _ : Fin 6 => (1 : ℝ) / 6) i) ∧
        ∑ i : Fin 6, (fun _ : Fin 6 => (1 : ℝ) / 6) i = 1) ∧
      0 ≤ entropy (fun _ : Fin 6 => (1 : ℝ) / 6) ∧
        entropy (fun _ : Fin 6 => (1 : ℝ) / 6) ≤ Real.log ((6 : ℕ) : ℝ) :=
  ⟨⟨fun i => by norm_num, by norm_num [Finset.sum_const, Finset.card_univ]⟩,
    entropy_bounds (fun _ : Fin 6 => (1 : ℝ) / 6) (fun i => by norm_num)
      (by norm_num [Finset.sum_const, Finset.card_univ])⟩

/-- C1: the `Transition` stored for the rollout (and the `action` used to
advance the environment via `env_act`) carries the LAST population
member's sampled action, value estimate and log-probability, because the
Python loop over the population re-binds `action`, `value` and `log_prob`
after the trainee's were sampled; on the concrete input the stored action
is member 0's action `3`, not the trainee's sampled action `2`, and the
stored value and log-probability likewise differ from the trainee's. -/
theorem stored_rollout_from_last_population_member :
    stored_action exC1 0 = exC1.pop_action 0 0 ∧
      stored_action exC1 0 ≠ exC1.trainee_action 0 ∧
      stored_value exC1 0 ≠ exC1.trainee_value 0 ∧
      stored_log_prob exC1 0 ≠ exC1.trainee_log_prob 0 := by
  refine ⟨rfl, ?_, ?_, ?_⟩ <;> decide

/-- C2: the diversity-bonus term `neg_logp_pop_new` for actor 1 is
computed from actor 0's row of the trainee-inclusive population mix (the
axis-free `jnp.take` indexes the flattened `(num_actors, 6)` array with
the action value), not from actor 1's own row: on the concrete input it
equals `-log(1/2)` (actor 0's probability of the sampled action) and
differs from `-log(1/4)` (actor 1's own probability of its sampled
action). -/
theorem diversity_bonus_misindexed :
    neg_logp_pop_new exC2 1 =
        - Real.log ((action_probs_pop_new_mix exC2 0 (exC2.trainee_action 1) : ℚ) : ℝ) ∧
      neg_logp_pop_new exC2 1 ≠
        - Real.log ((action_probs_pop_new_mix exC2 1 (exC2.trainee_action 1) : ℚ) : ℝ) := by
  have h1 : sampled_action_prob_pop_new exC2 1 = 1 / 2 := by
    norm_num [sampled_action_prob_pop_new, flatTake, action_probs_pop_new_mix,
      meanRows, action_probs_del, populationLoop, exC2, List.range_succ,
      List.eraseIdx]
  have h0 : action_probs_pop_new_mix exC2 0 (exC2.trainee_action 1) = 1 / 2 := by
    norm_num [action_probs_pop_new_mix, meanRows, action_probs_del,
      populationLoop, exC2, List.range_succ, List.eraseIdx]
  have h2 : action_probs_pop_new_mix exC2 1 (exC2.trainee_action 1) = 1 / 4 := by
    norm_num [action_probs_pop_new_mix, meanRows, action_probs_del,
      populationLoop, exC2, List.range_succ, List.eraseIdx]
  constructor
  · simp only [neg_logp_pop_new, h1, h0]
  · simp only [neg_logp_pop_new, h1, h2]
    intro h
    have hlog : Real.log (((1 / 2 : ℚ) : ℝ)) = Real.log (((1 / 4 : ℚ) : ℝ)) :=
      neg_injective h
    have hexp := congrArg Real.exp hlog
    rw [Real.exp_log (by norm_num), Real.exp_log (by norm_num)] at hexp
    norm_num at hexp

/-- C9: the reward-shaping weight is exactly `1` at environment-step `0`,
equals `1 - t/h` for `t ≤ h` (linear decrease reaching `0` at the
horizon), is `0` for all `t ≥ h`; and the per-(agent, env) total reward
is the original environment reward plus the weight (evaluated at
`update_step * num_steps * num_envs`) times the shaped-reward component,
with the diversity bonus added only afterwards. -/
theorem rew_shaping_anneal_weight (h t : ℕ) (hh : 0 < h)
    (inp : EnvStepInputs) (g e : ℕ) :
    rew_shaping_anneal h 0 = 1 ∧
      (t ≤ h → rew_shaping_anneal h t = 1 - (t : ℚ) / (h : ℚ)) ∧
      (h ≤ t → rew_shaping_anneal h t = 0) ∧
      step_reward inp g e =
        ((inp.orig_reward g e : ℚ) : ℝ) +
          ((inp.shaped_reward g e : ℚ) : ℝ) *
            ((rew_shaping_anneal inp.rew_shaping_horizon
                (inp.update_step * inp.num_steps * inp.num_envs) : ℚ) : ℝ) +
          ((inp.ent_pop_coeff : ℚ) : ℝ) * neg_logp_pop_new inp g := by
  refine ⟨?_, ?_, ?_, ?_⟩
  · simp [rew_shaping_anneal]
  · intro ht
    rw [rew_shaping_anneal, min_eq_left ht]
  · intro ht
    have hne : (h : ℚ) ≠ 0 := Nat.cast_ne_zero.mpr hh.ne'
    rw [rew_shaping_anneal, min_eq_right ht, div_self hne, sub_self]
  · rw [step_reward, reward_after_shaping]
    push_cast
    ring

/-- C9 witness: horizon `10`, step count `12`, concrete inputs. -/
theorem rew_shaping_anneal_weight_witness :
    (0 : ℕ) < 10 ∧
      (rew_shaping_anneal 10 0 = 1 ∧
        ((12 : ℕ) ≤ 10 → rew_shaping_anneal 10 12 = 1 - (12 : ℚ) / (10 : ℚ)) ∧
        ((10 : ℕ) ≤ 12 → rew_shaping_anneal 10 12 = 0) ∧
        step_reward exC1 0 0 =
          ((exC1.orig_reward 0 0 : ℚ) : ℝ) +
            ((exC1.shaped_reward 0 0 : ℚ) : ℝ) *
              ((rew_shaping_anneal exC1.rew_shaping_horizon
                  (exC1.update_step * exC1.num_steps * exC1.num_envs) : ℚ) : ℝ) +
            ((exC1.ent_pop_coeff : ℚ) : ℝ) * neg_logp_pop_new exC1 0) :=
  ⟨by decide, rew_shaping_anneal_weight 10 12 (by decide) exC1 0 0⟩
